/-
Verification of the DMS backend document service: a shallow embedding of the
version-chain manager, access-control evaluator, retrieval strategy resolver
and upload/delete route handlers (src/routes/documents.js and
src/middleware/upload.js), together with theorems checking the specified
properties against the embedded code.

Modelling conventions:
  - Mongo ObjectIds are modelled as Nat; the metadata store is a list of
    document records plus a fresh-id counter.
  - JavaScript strings are Lean Strings; the string operations the code uses
    (regex alternation test, substring containment, path.extname, toLowerCase)
    are implemented over the underlying character lists so that all
    definitions evaluate by kernel reduction.
  - bcrypt.hash / bcrypt.compare are abstract function parameters: the code
    under verification only orchestrates them.
  - JS truthiness of optional strings: undefined/null and the empty string
    are falsy, everything else is truthy.
  - Mongo query semantics relevant here: an equality filter on _id with a
    null query value matches no record (every _id is a real ObjectId), while
    an equality filter on parentDocument with a null query value matches the
    records whose parentDocument is null.
-/
import Mathlib

namespace DMS

/-- Boolean prefix test on character lists. -/
def isPrefixList : List Char → List Char → Bool
  | [], _ => true
  | _ :: _, [] => false
  | p :: ps, c :: cs => p == c && isPrefixList ps cs

/-- Boolean substring test on character lists: does pat occur contiguously. -/
def containsList (pat : List Char) : List Char → Bool
  | [] => isPrefixList pat []
  | c :: cs => isPrefixList pat (c :: cs) || containsList pat cs

/-- JS String.prototype.includes, and membership of one alternative of a regex
alternation: substring containment. -/
def strContainsSub (s pat : String) : Bool := containsList pat.data s.data

/-- JS String.prototype.startsWith. -/
def strStartsWith (s pat : String) : Bool := isPrefixList pat.data s.data

/-- Lowercasing of a string, on the character list. -/
def strLower (s : String) : String := ⟨s.data.map Char.toLower⟩

/-- Characters of the basename of a path: everything after the last slash. -/
def basenameChars (s : String) : List Char :=
  (s.data.reverse.takeWhile (fun c => c != '/')).reverse

/-- Characters of the extension of a filename, as in Node path.extname: from
the last dot of the basename to the end; empty when the basename has no dot or
only a leading dot. -/
def extnameChars (s : String) : List Char :=
  let b := basenameChars s
  let after := b.reverse.takeWhile (fun c => c != '.')
  if after.length == b.length then []
  else if b.length == after.length + 1 then []
  else b.drop (b.length - after.length - 1)

/-- Node path.extname as a string. -/
def extnameOf (s : String) : String := ⟨extnameChars s⟩

/-- Node path.parse(s).name: the basename with its extension removed.  The
upload route uses this as the baseFileName chain key. -/
def parseNameOf (s : String) : String :=
  let b := basenameChars s
  ⟨b.take (b.length - (extnameChars s).length)⟩

/-- Truthiness of an optional JS string: undefined/null and the empty string
are falsy. -/
def truthy : Option String → Bool
  | none => false
  | some s => s != ""

/-- Access levels of a document record, the accessLevel enum of the Document
schema. -/
inductive AccessLevel
  | publicLevel
  | privateLevel
  | protectedLevel
deriving DecidableEq, Repr

/-- Entries of the denormalized versionHistory list: version, documentId,
uploadDate (an abstract tick), uploadedBy. -/
structure VHEntry where
  version : Nat
  documentId : Nat
  uploadDate : Nat
  uploadedBy : Nat
deriving DecidableEq, Repr

/-- A document record of the metadata store, with the fields of the Document
schema that the verified routes read or write. -/
structure Doc where
  id : Nat
  originalName : String
  mimetype : String
  size : Nat
  dropboxPath : String
  uploadedBy : Nat
  category : String
  accessLevel : AccessLevel
  accessPin : Option String
  baseFileName : String
  version : Nat
  isLatestVersion : Bool
  parentDocument : Option Nat
  versionHistory : List VHEntry
  fileHash : String
  downloadCount : Nat
  createdAt : Nat
deriving DecidableEq, Repr

/-- A default record used to build concrete instances concisely. -/
def baseDoc : Doc :=
  { id := 0, originalName := "f.pdf", mimetype := "application/pdf", size := 1,
    dropboxPath := "/documents/f.pdf", uploadedBy := 0, category := "pdf",
    accessLevel := .privateLevel, accessPin := none, baseFileName := "f",
    version := 1, isLatestVersion := true, parentDocument := none,
    versionHistory := [], fileHash := "h", downloadCount := 0, createdAt := 0 }

/-- Access evaluation of GET /download/:id (documents.js lines 388..397),
parametrized by the bcrypt.compare primitive.  Returns the hasAccess flag and
the number of invocations of the comparison primitive.  For a protected
document the comparison runs only under the JS truthiness guard
(pin and document.accessPin both truthy). -/
def downloadAccessEval (bcryptCompare : String → String → Bool) (doc : Doc)
    (userId : Nat) (userRole : String) (pin : Option String) : Bool × Nat :=
  match doc.accessLevel with
  | .publicLevel => (true, 0)
  | .privateLevel => (userRole == "admin" || doc.uploadedBy == userId, 0)
  | .protectedLevel =>
    match pin, doc.accessPin with
    | some p, some h =>
      if p != "" && h != "" then (bcryptCompare p h, 1) else (false, 0)
    | _, _ => (false, 0)

/-- The hasAccess flag of the download access evaluation. -/
def downloadHasAccess (bcryptCompare : String → String → Bool) (doc : Doc)
    (userId : Nat) (userRole : String) (pin : Option String) : Bool :=
  (downloadAccessEval bcryptCompare doc userId userRole pin).1

/-- Denial responses of the download route (documents.js lines 402..407):
the 401 pin-required response carrying requiresPin, or the generic 403. -/
inductive DownloadDenial
  | pinRequired
  | accessDenied
deriving DecidableEq, Repr

/-- Outcome of the access-control part of GET /download/:id: none when access
is granted, otherwise the denial response sent. -/
def downloadAccessDecision (bcryptCompare : String → String → Bool) (doc : Doc)
    (userId : Nat) (userRole : String) (pin : Option String) :
    Option DownloadDenial :=
  if downloadHasAccess bcryptCompare doc userId userRole pin then none
  else if doc.accessLevel == .protectedLevel then some .pinRequired
  else some .accessDenied

/-- Responses of POST /verify-pin/:id (documents.js lines 306..338).
compareError models the 500 from bcrypt.compare rejecting when the stored
hash is not a string. -/
inductive VerifyPinOutcome
  | docNotFound
  | notProtected
  | pinMissing
  | invalidPin
  | verified
  | compareError
deriving DecidableEq, Repr

/-- POST /verify-pin/:id, parametrized by bcrypt.compare. -/
def verifyPinRoute (bcryptCompare : String → String → Bool)
    (doc? : Option Doc) (pin : Option String) : VerifyPinOutcome :=
  match doc? with
  | none => .docNotFound
  | some doc =>
    if doc.accessLevel != .protectedLevel then .notProtected
    else
      match pin with
      | none => .pinMissing
      | some p =>
        if p == "" then .pinMissing
        else
          match doc.accessPin with
          | none => .compareError
          | some h => if bcryptCompare p h then .verified else .invalidPin

/-- The metadata store: the list of document records in insertion order, plus
the counter supplying fresh ObjectIds. -/
structure DB where
  docs : List Doc
  nextId : Nat
deriving DecidableEq, Repr

/-- The empty store a fresh deployment starts from. -/
def emptyDB : DB := { docs := [], nextId := 0 }

/-- Membership in a version chain: the Mongo filter on baseFileName and
uploadedBy used by the upload and delete routes. -/
def inChain (owner : Nat) (base : String) (d : Doc) : Bool :=
  d.baseFileName == base && d.uploadedBy == owner

/-- All records of a chain, in store order. -/
def chainDocs (db : DB) (owner : Nat) (base : String) : List Doc :=
  db.docs.filter (inChain owner base)

/-- The record yielded by sorting on version descending and taking the first:
an element of maximal version (the earliest such element). -/
def maxVersionDoc : List Doc → Option Doc
  | [] => none
  | d :: ds =>
    match maxVersionDoc ds with
    | none => some d
    | some m => if m.version > d.version then some m else some d

/-- Mongo equality filter on _id for a possibly-null query value: _id is never
null, so a null query value matches no record. -/
def idFilterMatches (q : Option Nat) (d : Doc) : Bool :=
  match q with
  | some i => d.id == i
  | none => false

/-- Mongo equality filter on parentDocument: a null query value matches the
records whose parentDocument is null. -/
def parentFilterMatches (q : Option Nat) (d : Doc) : Bool :=
  d.parentDocument == q

/-- Filter of the versionHistory fan-out updateMany of POST /upload
(documents.js lines 211..216): an $or of _id = parentDocument,
parentDocument = parentDocument, and _id = the new record. -/
def fanoutFilterMatches (parent : Option Nat) (newId : Nat) (d : Doc) : Bool :=
  idFilterMatches parent d || parentFilterMatches parent d || d.id == newId

/-- Category derivation of POST /upload (documents.js lines 133..141). -/
def categoryOf (mimetype : String) : String :=
  if strStartsWith mimetype "image/" then "image"
  else if mimetype == "application/pdf" then "pdf"
  else if strContainsSub mimetype "document" || strContainsSub mimetype "text"
    then "document"
  else "other"

/-- Validated inputs the upload handler persists: the multipart file metadata
plus the already-hashed PIN.  now is the abstract creation timestamp. -/
structure UploadMeta where
  originalName : String
  mimetype : String
  size : Nat
  fileHash : String
  accessLevel : AccessLevel
  accessPin : Option String
  now : Nat

/-- Version resolution of POST /upload (documents.js lines 148..160): with no
existing chain member, version 1 and a null parent; otherwise one more than
the maximal existing version, with the parent resolved to the chain root (the
parentDocument of the maximal member when set, else the id of that member). -/
def uploadVersionParent (db : DB) (owner : Nat) (base : String) :
    Nat × Option Nat :=
  match maxVersionDoc (chainDocs db owner base) with
  | none => (1, none)
  | some top => (top.version + 1, some (top.parentDocument.getD top.id))

/-- Update of one record under the bulk flip of POST /upload (documents.js
lines 163..169): chain members lose isLatestVersion. -/
def flipLatest (owner : Nat) (base : String) (d : Doc) : Doc :=
  if inChain owner base d then { d with isLatestVersion := false } else d

/-- Update of one record under the versionHistory fan-out push of POST /upload
(documents.js lines 211..216). -/
def pushEntry (parent : Option Nat) (newId : Nat) (entry : VHEntry) (d : Doc) :
    Doc :=
  if fanoutFilterMatches parent newId d
  then { d with versionHistory := d.versionHistory ++ [entry] } else d

/-- The new record built by POST /upload (documents.js lines 180..198). -/
def mkNewDoc (id : Nat) (owner : Nat) (meta : UploadMeta)
    (vp : Nat × Option Nat) : Doc :=
  { id := id, originalName := meta.originalName, mimetype := meta.mimetype,
    size := meta.size, dropboxPath := "/documents/" ++ meta.originalName,
    uploadedBy := owner, category := categoryOf meta.mimetype,
    accessLevel := meta.accessLevel, accessPin := meta.accessPin,
    baseFileName := parseNameOf meta.originalName, version := vp.1,
    isLatestVersion := true, parentDocument := vp.2, versionHistory := [],
    fileHash := meta.fileHash, downloadCount := 0, createdAt := meta.now }

/-- The versionHistory entry pushed by POST /upload (documents.js 204..209). -/
def mkEntry (v : Nat) (newId : Nat) (now : Nat) (owner : Nat) : VHEntry :=
  { version := v, documentId := newId, uploadDate := now, uploadedBy := owner }

/-- Core of POST /upload after validation and the blob write (documents.js
lines 143..216): version resolution against the existing chain, the bulk flip
of isLatestVersion (run only when the chain already has members), insertion of
the new record, and the versionHistory fan-out.  Returns the updated store and
the record as inserted. -/
def uploadHandler (db : DB) (owner : Nat) (meta : UploadMeta) : DB × Doc :=
  let base := parseNameOf meta.originalName
  let vp := uploadVersionParent db owner base
  let flipped :=
    if (chainDocs db owner base).isEmpty then db.docs
    else db.docs.map (flipLatest owner base)
  let newDoc := mkNewDoc db.nextId owner meta vp
  let entry := mkEntry vp.1 db.nextId meta.now owner
  ({ docs := (flipped ++ [newDoc]).map (pushEntry vp.2 db.nextId entry),
     nextId := db.nextId + 1 }, newDoc)

/-- Iterated uploads by one owner; the i-th upload uses metas i. -/
def uploadsN (db : DB) (owner : Nat) (metas : Nat → UploadMeta) : Nat → DB
  | 0 => db
  | n + 1 => (uploadHandler (uploadsN db owner metas n) owner (metas n)).1

/-- Outcomes of the blob-store delete call underlying deleteFromDropbox:
notFound models a Dropbox 409 response. -/
inductive BlobDeleteOutcome
  | ok
  | notFound
  | otherError (msg : String)
deriving DecidableEq, Repr

/-- deleteFromDropbox (upload.js lines 264..284): a 409 not-found response is
converted to a successful return, every other error is rethrown wrapped. -/
def deleteFromDropbox : BlobDeleteOutcome → Except String Bool
  | .ok => .ok true
  | .notFound => .ok true
  | .otherError m => .error ("Dropbox delete failed: " ++ m)

/-- Responses of DELETE /:id. -/
inductive DeleteOutcome
  | docNotFound
  | accessDenied
  | deleted
deriving DecidableEq, Repr

/-- Mongo findOne followed by save: set isLatestVersion on the first record of
the chain carrying the given version (documents.js lines 513..522). -/
def setFirstLatest : List Doc → Nat → String → Nat → List Doc
  | [], _, _, _ => []
  | d :: ds, owner, base, v =>
    if inChain owner base d && d.version == v
    then { d with isLatestVersion := true } :: ds
    else d :: setFirstLatest ds owner base v

/-- Update of one record under the versionHistory pruning of DELETE /:id
(documents.js lines 526..531): records matched by the $or on the parentDocument
of the deleted record lose the fan-out entries pointing at it. -/
def pruneEntry (parent : Option Nat) (docId : Nat) (d : Doc) : Doc :=
  if idFilterMatches parent d || parentFilterMatches parent d
  then { d with
    versionHistory := d.versionHistory.filter (fun e => e.documentId != docId) }
  else d

/-- DELETE /:id (documents.js lines 489..541): lookup, owner-or-admin
authorization, best-effort blob delete whose failure is caught and logged,
re-pointing of isLatestVersion when the deleted record was the latest of a
multi-version chain, pruning of the versionHistory fan-out, and removal of
the record. -/
def deleteRoute (db : DB) (docId : Nat) (userId : Nat) (userRole : String)
    (blob : BlobDeleteOutcome) : DB × DeleteOutcome :=
  match db.docs.find? (fun d => d.id == docId) with
  | none => (db, .docNotFound)
  | some doc =>
    if userRole != "admin" && doc.uploadedBy != userId then (db, .accessDenied)
    else
      let docs1 :=
        match deleteFromDropbox blob with
        | .ok _ => db.docs
        | .error _ => db.docs
      let docs2 :=
        if doc.isLatestVersion && doc.version > 1 then
          setFirstLatest docs1 doc.uploadedBy doc.baseFileName (doc.version - 1)
        else docs1
      let docs3 := docs2.map (pruneEntry doc.parentDocument docId)
      let docs4 := docs3.filter (fun d => d.id != docId)
      ({ db with docs := docs4 }, .deleted)

/-- A completed request against the store: an upload or a delete. -/
inductive Op
  | upload (owner : Nat) (meta : UploadMeta)
  | deleteDoc (docId : Nat) (userId : Nat) (userRole : String)
      (blob : BlobDeleteOutcome)

/-- State transition of one completed request. -/
def stepOp (db : DB) : Op → DB
  | .upload owner meta => (uploadHandler db owner meta).1
  | .deleteDoc docId userId userRole blob =>
    (deleteRoute db docId userId userRole blob).1

/-- Replay of a sequence of completed, non-overlapping requests. -/
def runOps (db : DB) (ops : List Op) : DB := ops.foldl stepOp db

/-- Test for a chain member carrying isLatestVersion. -/
def latestInChain (owner : Nat) (base : String) (d : Doc) : Bool :=
  inChain owner base d && d.isLatestVersion

/-- Number of records of a chain carrying isLatestVersion. -/
def countLatest (db : DB) (owner : Nat) (base : String) : Nat :=
  db.docs.countP (latestInChain owner base)

/-- An error surfaced by a Dropbox SDK call: its message, optional HTTP
status, and optional system error code. -/
structure DbxError where
  msg : String
  status : Option Nat
  code : Option String
deriving DecidableEq, Repr

/-- An error value carrying only a message, as built by new Error(msg). -/
def mkErr (msg : String) : DbxError := { msg := msg, status := none, code := none }

/-- Outcome of one download strategy attempt: a normalized byte buffer, an
exception, or a response of unusable shape (no usable link or binary payload,
which the code falls through without throwing). -/
inductive Attempt
  | ok (bytes : List Nat)
  | err (e : DbxError)
  | badShape
deriving DecidableEq, Repr

/-- The three download strategies of downloadFromDropbox, in order. -/
inductive Strategy
  | direct
  | tempLink
  | sharedLink
deriving DecidableEq, Repr

/-- The message marking the known SDK response-parsing incompatibility that
alone justifies falling through to the alternative strategies. -/
def bufferIncompatMarker : String := "res.buffer is not a function"

/-- Error classification of the outer catch of downloadFromDropbox
(upload.js lines 212..231). -/
def classifyDownloadError (e : DbxError) : String :=
  if e.status == some 409 then "File not found in Dropbox"
  else if e.status == some 401 then "Dropbox authentication failed"
  else if e.status == some 429 then "Dropbox rate limit exceeded"
  else if strContainsSub e.msg "network" || e.code == some "ENOTFOUND" then
    "Network error connecting to Dropbox"
  else "Dropbox download failed: " ++ e.msg

/-- Body of the outer try of downloadFromDropbox (upload.js lines 84..210),
parametrized by the path, the connectivity probe outcome, and the outcomes of
the three strategies.  Returns the bytes or the error thrown, together with
the list of strategies attempted. -/
def downloadFromDropboxCore (path : String) (probe : Option DbxError)
    (m1 m2 m3 : Attempt) : Except DbxError (List Nat) × List Strategy :=
  if path == "" then (.error (mkErr "Dropbox path is required"), [])
  else
    match probe with
    | some e => (.error (mkErr ("Dropbox connection failed: " ++ e.msg)), [])
    | none =>
      match m1 with
      | .ok bs => (.ok bs, [.direct])
      | .badShape => (.error (mkErr "All download methods failed"), [.direct])
      | .err e1 =>
        if strContainsSub e1.msg bufferIncompatMarker then
          match m2 with
          | .ok bs => (.ok bs, [.direct, .tempLink])
          | _ =>
            match m3 with
            | .ok bs => (.ok bs, [.direct, .tempLink, .sharedLink])
            | _ => (.error e1, [.direct, .tempLink, .sharedLink])
        else (.error e1, [.direct])

/-- downloadFromDropbox: the core body with every thrown error classified by
the outer catch into a replacement message. -/
def downloadFromDropbox (path : String) (probe : Option DbxError)
    (m1 m2 m3 : Attempt) : Except String (List Nat) × List Strategy :=
  match downloadFromDropboxCore path probe m1 m2 m3 with
  | (.ok bs, tr) => (.ok bs, tr)
  | (.error e, tr) => (.error (classifyDownloadError e), tr)

/-- The alternatives of the multer fileFilter regex (upload.js line 9). -/
def allowedTypeTokens : List String :=
  ["jpeg", "jpg", "png", "gif", "pdf", "doc", "docx", "txt", "xlsx", "xls",
   "ppt", "pptx"]

/-- JS regex alternation test of the allowlist against a string: true iff some
alternative occurs in the string as a substring. -/
def allowedTypesTest (s : String) : Bool :=
  allowedTypeTokens.any (fun t => strContainsSub s t)

/-- The multer fileFilter (upload.js lines 8..18): both the lowercased
extension of the original name and the declared mimetype must pass the
alternation test. -/
def fileFilter (originalname mimetype : String) : Bool :=
  allowedTypesTest (strLower (extnameOf originalname)) && allowedTypesTest mimetype

/-- The multer fileSize limit (upload.js line 289). -/
def maxFileSize : Nat := 10 * 1024 * 1024

/-- Observable side effects of the upload route, in the order the handler
performs them. -/
inductive UploadEffect
  | hashComputed
  | blobWrite
  | recordInsert
deriving DecidableEq, Repr

/-- Responses of POST /upload. -/
inductive UploadResponse
  | rejectedByMulter
  | invalidAccessLevel
  | pinTooShort
  | created (version : Nat)
deriving DecidableEq, Repr

/-- The access levels accepted by the upload validation. -/
def validAccessLevels : List String := ["public", "private", "protected"]

/-- Parse of a validated accessLevel string into the enum. -/
def parseAccessLevel : String → AccessLevel
  | "public" => .publicLevel
  | "protected" => .protectedLevel
  | _ => .privateLevel

/-- POST /upload end to end (multer, then documents.js lines 100..226),
parametrized by the content hash function and the bcrypt PIN hashing
primitive.  The multer middleware (fileFilter plus the fileSize limit) runs
before the handler: on rejection the handler never runs, so no hash is
computed, no blob is written and no record is inserted.  The blob write is
taken as succeeding, as the claims concern completed uploads.  Returns the
store, the response, and the trace of effects performed. -/
def uploadRoute (hashFn : List Nat → String) (pinHash : String → String)
    (db : DB) (userId : Nat) (originalname mimetype : String)
    (content : List Nat) (accessLevel accessPin : Option String) (now : Nat) :
    DB × UploadResponse × List UploadEffect :=
  if !(fileFilter originalname mimetype) || maxFileSize < content.length then
    (db, .rejectedByMulter, [])
  else if !(validAccessLevels.contains (accessLevel.getD "")) then
    (db, .invalidAccessLevel, [])
  else if accessLevel == some "protected" &&
      (!(truthy accessPin) || (accessPin.getD "").length < 4) then
    (db, .pinTooShort, [])
  else
    let fileHash := hashFn content
    let hashedPin : Option String :=
      if accessLevel == some "protected" && truthy accessPin
      then some (pinHash (accessPin.getD "")) else none
    let meta : UploadMeta :=
      { originalName := originalname, mimetype := mimetype,
        size := content.length, fileHash := fileHash,
        accessLevel := parseAccessLevel (accessLevel.getD ""),
        accessPin := hashedPin, now := now }
    let r := uploadHandler db userId meta
    (r.1, .created r.2.version, [.hashComputed, .blobWrite, .recordInsert])

/-- A protected document whose stored PIN hash is the literal "1234" (the
hash value is never interpreted by the routes; the comparison primitive is a parameter). -/
def docProt : Doc :=
  { baseDoc with id := 3, uploadedBy := 1, accessLevel := .protectedLevel,
                 accessPin := some "1234" }

/-- A protected document with no stored PIN hash. -/
def docProtNoHash : Doc :=
  { baseDoc with id := 4, uploadedBy := 1, accessLevel := .protectedLevel,
                 accessPin := none }

/-- A single-version document of an unrelated user, the root of its own chain. -/
def docForeignRoot : Doc :=
  { baseDoc with id := 1, uploadedBy := 2, baseFileName := "unrelated",
                 originalName := "unrelated.txt", mimetype := "text/plain",
                 category := "document" }

/-- Upload metadata for a file named report.pdf. -/
def metaReport : UploadMeta :=
  { originalName := "report.pdf", mimetype := "application/pdf", size := 5,
    fileHash := "H1", accessLevel := .privateLevel, accessPin := none,
    now := 10 }

/-- Version 1 of a two-version chain owned by user 1. -/
def docV1 : Doc :=
  { baseDoc with id := 10, uploadedBy := 1, baseFileName := "r",
                 originalName := "r.pdf", version := 1,
                 isLatestVersion := false, parentDocument := none }

/-- Version 2, the latest of the chain, child of docV1. -/
def docV2 : Doc :=
  { baseDoc with id := 11, uploadedBy := 1, baseFileName := "r",
                 originalName := "r.pdf", version := 2,
                 isLatestVersion := true, parentDocument := some 10 }

/-- A store holding the two-version chain. -/
def dbTwo : DB := { docs := [docV1, docV2], nextId := 12 }

/-- The ids of the stored records, in store order. -/
def docIds (db : DB) : List Nat := db.docs.map (fun d => d.id)

/-- Validity of the id supply: every stored id is below the fresh-id counter,
and the stored ids are pairwise distinct. -/
def GoodIds (db : DB) : Prop :=
  (∀ i ∈ docIds db, i < db.nextId) ∧ (docIds db).Nodup

/-- The at-most-one-latest invariant, over every chain at once. -/
def LatestAtMostOne (db : DB) : Prop := ∀ o b, countLatest db o b ≤ 1

/-- The store invariant maintained by completed requests. -/
def StoreInv (db : DB) : Prop := GoodIds db ∧ LatestAtMostOne db

/-- Shape of a chain after k completed uploads: the versions run 1..k in
store order, the version-1 record is the root r with a null parent, and every
later version points its parentDocument at r. -/
def ChainShape (db : DB) (owner : Nat) (b : String) (k r : Nat) : Prop :=
  ((chainDocs db owner b).map (fun d => d.version) = List.range' 1 k) ∧
  ∀ d ∈ chainDocs db owner b,
    (d.version = 1 → d.id = r ∧ d.parentDocument = none) ∧
    (2 ≤ d.version → d.parentDocument = some r)

/-- C1: for every protected document and every caller, download access is
granted iff the supplied PIN matches the stored salted hash under the
comparison primitive (a PIN or stored hash that is absent or empty is falsy
in JS and cannot grant), and the decision is entirely independent of the
identity and role of the caller: neither ownership nor the admin role bypasses the
PIN requirement. -/
theorem protected_download_grants_iff_pin_matches
    (cmp : String → String → Bool) (doc : Doc) (userId : Nat)
    (userRole : String) (pin : Option String)
    (hprot : doc.accessLevel = AccessLevel.protectedLevel) :
    (downloadHasAccess cmp doc userId userRole pin = true ↔
      ∃ p h, pin = some p ∧ p ≠ "" ∧ doc.accessPin = some h ∧ h ≠ "" ∧
        cmp p h = true) ∧
    ∀ userId2 userRole2,
      downloadHasAccess cmp doc userId2 userRole2 pin =
        downloadHasAccess cmp doc userId userRole pin := by
  constructor
  · cases pin with
    | none => simp [downloadHasAccess, downloadAccessEval, hprot]
    | some p =>
      cases hap : doc.accessPin with
      | none => simp [downloadHasAccess, downloadAccessEval, hprot, hap]
      | some h =>
        by_cases hp : p = "" <;> by_cases hh : h = "" <;>
          simp [downloadHasAccess, downloadAccessEval, hprot, hap, hp, hh]
  · intro userId2 userRole2
    simp [downloadHasAccess, downloadAccessEval, hprot]

/-- Witness for C1 at a concrete protected document, caller and PIN. -/
theorem protected_download_grants_iff_pin_matches_witness :
    (downloadHasAccess (fun p h => p == h) docProt 2 "user" (some "1234") =
        true ↔
      ∃ p h, (some "1234" : Option String) = some p ∧ p ≠ "" ∧
        docProt.accessPin = some h ∧ h ≠ "" ∧ (p == h) = true) ∧
    ∀ userId2 userRole2,
      downloadHasAccess (fun p h => p == h) docProt userId2 userRole2
          (some "1234") =
        downloadHasAccess (fun p h => p == h) docProt 2 "user" (some "1234") :=
  protected_download_grants_iff_pin_matches (fun p h => p == h) docProt 2
    "user" (some "1234") rfl

/-- C2 counterexample: in the download route, a supplied-but-wrong PIN
produces exactly the same denial response as a missing PIN: both yield the
401 pin-required denial, so the two cases are not distinguished there. -/
theorem wrong_pin_same_denial_as_missing_pin :
    downloadAccessDecision (fun p h => p == h) docProt 2 "user" (some "9999") =
      some DownloadDenial.pinRequired ∧
    downloadAccessDecision (fun p h => p == h) docProt 2 "user" none =
      some DownloadDenial.pinRequired := by
  constructor <;> rfl

/-- C2 amended: the download route returns the pin-required denial for every
denied access to a protected document, whether the PIN was missing or wrong;
a non-owner denial on a private document yields the distinct access-denied
response; only the separate verify-pin endpoint distinguishes a missing PIN
from a wrong PIN. -/
theorem denial_responses_by_route (cmp : String → String → Bool) (doc : Doc)
    (userId : Nat) (userRole : String) (pin : Option String) :
    (doc.accessLevel = AccessLevel.protectedLevel →
      downloadHasAccess cmp doc userId userRole pin = false →
      downloadAccessDecision cmp doc userId userRole pin =
        some DownloadDenial.pinRequired) ∧
    (doc.accessLevel = AccessLevel.privateLevel →
      downloadHasAccess cmp doc userId userRole pin = false →
      downloadAccessDecision cmp doc userId userRole pin =
        some DownloadDenial.accessDenied) ∧
    (doc.accessLevel = AccessLevel.protectedLevel →
      verifyPinRoute cmp (some doc) none = VerifyPinOutcome.pinMissing) ∧
    (∀ p hsh, doc.accessLevel = AccessLevel.protectedLevel →
      doc.accessPin = some hsh → p ≠ "" → cmp p hsh = false →
      verifyPinRoute cmp (some doc) (some p) =
        VerifyPinOutcome.invalidPin) := by
  refine ⟨?_, ?_, ?_, ?_⟩
  · intro hprot hdeny
    unfold downloadAccessDecision
    rw [hdeny, hprot]
    rfl
  · intro hpriv hdeny
    unfold downloadAccessDecision
    rw [hdeny, hpriv]
    rfl
  · intro hprot
    simp [verifyPinRoute, hprot]
  · intro p hsh hprot hpin hp hcmp
    simp [verifyPinRoute, hprot, hpin, hp, hcmp]

/-- Witness for the amended C2 at a concrete document, caller and PINs. -/
theorem denial_responses_by_route_witness :
    ((docProt.accessLevel = AccessLevel.protectedLevel →
      downloadHasAccess (fun p h => p == h) docProt 2 "user" (some "9999") =
        false →
      downloadAccessDecision (fun p h => p == h) docProt 2 "user"
          (some "9999") = some DownloadDenial.pinRequired) ∧
    (docProt.accessLevel = AccessLevel.privateLevel →
      downloadHasAccess (fun p h => p == h) docProt 2 "user" (some "9999") =
        false →
      downloadAccessDecision (fun p h => p == h) docProt 2 "user"
          (some "9999") = some DownloadDenial.accessDenied) ∧
    (docProt.accessLevel = AccessLevel.protectedLevel →
      verifyPinRoute (fun p h => p == h) (some docProt) none =
        VerifyPinOutcome.pinMissing) ∧
    (∀ p hsh, docProt.accessLevel = AccessLevel.protectedLevel →
      docProt.accessPin = some hsh → p ≠ "" → (p == hsh) = false →
      verifyPinRoute (fun p h => p == h) (some docProt) (some p) =
        VerifyPinOutcome.invalidPin)) ∧
    downloadHasAccess (fun p h => p == h) docProt 2 "user" (some "9999") =
      false :=
  ⟨denial_responses_by_route (fun p h => p == h) docProt 2 "user"
    (some "9999"), by decide⟩

/-- C9 counterexample: on a download of a protected document with a PIN
supplied but no stored hash, the comparison primitive is not executed at all
(invocation count 0): the evaluation does skip the comparison based on the
presence of the stored hash. -/
theorem pin_compare_skipped_when_no_stored_hash :
    (downloadAccessEval (fun _ _ => true) docProtNoHash 2 "user"
        (some "1234")).2 = 0 := by
  rfl

/-- C9 amended: in the download access evaluation of a protected document the
comparison primitive runs exactly when both a truthy PIN is supplied and a
truthy stored hash is present; when the stored hash is absent the comparison
is skipped and access is denied. -/
theorem pin_compare_runs_iff_pin_and_hash_present
    (cmp : String → String → Bool) (doc : Doc) (userId : Nat)
    (userRole : String) (pin : Option String)
    (hprot : doc.accessLevel = AccessLevel.protectedLevel) :
    ((downloadAccessEval cmp doc userId userRole pin).2 = 1 ↔
      truthy pin = true ∧ truthy doc.accessPin = true) ∧
    (doc.accessPin = none →
      (downloadAccessEval cmp doc userId userRole pin).1 = false) := by
  unfold downloadAccessEval
  rw [hprot]
  constructor
  · cases pin with
    | none => simp [truthy]
    | some p =>
      cases doc.accessPin with
      | none => simp [truthy]
      | some h =>
        by_cases hp : p = "" <;> by_cases hh : h = "" <;>
          simp [truthy, hp, hh]
  · intro hnone
    rw [hnone]
    cases pin <;> rfl

/-- Witness for the amended C9 at a concrete document and PIN. -/
theorem pin_compare_runs_iff_pin_and_hash_present_witness :
    (((downloadAccessEval (fun _ _ => true) docProtNoHash 2 "user"
        (some "1234")).2 = 1 ↔
      truthy (some "1234") = true ∧ truthy docProtNoHash.accessPin = true) ∧
    (docProtNoHash.accessPin = none →
      (downloadAccessEval (fun _ _ => true) docProtNoHash 2 "user"
          (some "1234")).1 = false)) ∧
    docProtNoHash.accessPin = none :=
  ⟨pin_compare_runs_iff_pin_and_hash_present (fun _ _ => true) docProtNoHash 2
    "user" (some "1234") rfl, rfl⟩

/-- C6: the temporary-link and shared-link strategies are attempted iff the
direct fetch failed with the known response-parsing incompatibility (the
res.buffer marker); every other direct-fetch failure is propagated
immediately, classified by the outer catch, with no further strategy
attempted. -/
theorem fallback_strategies_only_on_parse_incompat (path : String)
    (probe : Option DbxError) (m1 m2 m3 : Attempt) (hpath : path ≠ "")
    (hprobe : probe = none) :
    ((Strategy.tempLink ∈ (downloadFromDropbox path probe m1 m2 m3).2 ∨
      Strategy.sharedLink ∈ (downloadFromDropbox path probe m1 m2 m3).2) ↔
      ∃ e, m1 = Attempt.err e ∧
        strContainsSub e.msg bufferIncompatMarker = true) ∧
    (∀ e, m1 = Attempt.err e →
      strContainsSub e.msg bufferIncompatMarker = false →
      downloadFromDropbox path probe m1 m2 m3 =
        (Except.error (classifyDownloadError e), [Strategy.direct])) := by
  subst hprobe
  have hpe : (path == "") = false := by
    simp [hpath]
  constructor
  · cases m1 with
    | ok bs =>
      simp [downloadFromDropbox, downloadFromDropboxCore, hpe]
    | badShape =>
      simp [downloadFromDropbox, downloadFromDropboxCore, hpe]
    | err e1 =>
      cases hmark : strContainsSub e1.msg bufferIncompatMarker with
      | true =>
        cases m2 with
        | ok bs =>
          simp [downloadFromDropbox, downloadFromDropboxCore, hpe, hmark]
        | badShape =>
          cases m3 with
          | ok bs =>
            simp [downloadFromDropbox, downloadFromDropboxCore, hpe, hmark]
          | badShape =>
            simp [downloadFromDropbox, downloadFromDropboxCore, hpe, hmark]
          | err e3 =>
            simp [downloadFromDropbox, downloadFromDropboxCore, hpe, hmark]
        | err e2 =>
          cases m3 with
          | ok bs =>
            simp [downloadFromDropbox, downloadFromDropboxCore, hpe, hmark]
          | badShape =>
            simp [downloadFromDropbox, downloadFromDropboxCore, hpe, hmark]
          | err e3 =>
            simp [downloadFromDropbox, downloadFromDropboxCore, hpe, hmark]
      | false =>
        simp [downloadFromDropbox, downloadFromDropboxCore, hpe, hmark]
  · intro e he hmark
    subst he
    simp [downloadFromDropbox, downloadFromDropboxCore, hpe, hmark]

/-- Witness for C6 at a concrete path and a direct-fetch auth failure: no
fallback strategy is attempted and the classified auth error is returned. -/
theorem fallback_strategies_only_on_parse_incompat_witness :
    ((Strategy.tempLink ∈ (downloadFromDropbox "/documents/r.pdf" none
        (Attempt.err { msg := "auth", status := some 401, code := none })
        (Attempt.ok [1]) (Attempt.ok [2])).2 ∨
      Strategy.sharedLink ∈ (downloadFromDropbox "/documents/r.pdf" none
        (Attempt.err { msg := "auth", status := some 401, code := none })
        (Attempt.ok [1]) (Attempt.ok [2])).2) ↔
      ∃ e, Attempt.err { msg := "auth", status := some 401, code := none } =
          Attempt.err e ∧
        strContainsSub e.msg bufferIncompatMarker = true) ∧
    (∀ e, Attempt.err { msg := "auth", status := some 401, code := none } =
        Attempt.err e →
      strContainsSub e.msg bufferIncompatMarker = false →
      downloadFromDropbox "/documents/r.pdf" none
          (Attempt.err { msg := "auth", status := some 401, code := none })
          (Attempt.ok [1]) (Attempt.ok [2]) =
        (Except.error (classifyDownloadError e), [Strategy.direct])) :=
  fallback_strategies_only_on_parse_incompat "/documents/r.pdf" none
    (Attempt.err { msg := "auth", status := some 401, code := none })
    (Attempt.ok [1]) (Attempt.ok [2]) (by decide) rfl

/-- C10 counterexample: a file whose extension mypdf and declared mimetype
fake/mypdf are both outside the listed allowlist is nevertheless accepted by
the filter (the regex test is substring containment, and mypdf contains pdf),
so the upload proceeds: the hash is computed, the blob is written and a
record is inserted. -/
theorem nonallowlisted_extension_accepted :
    (uploadRoute (fun _ => "H") (fun p => p) emptyDB 1 "evil.mypdf"
        "fake/mypdf" [0] (some "public") none 0).2.2 =
      [UploadEffect.hashComputed, UploadEffect.blobWrite,
       UploadEffect.recordInsert] ∧
    (uploadRoute (fun _ => "H") (fun p => p) emptyDB 1 "evil.mypdf"
        "fake/mypdf" [0] (some "public") none 0).1 ≠ emptyDB ∧
    extnameOf "evil.mypdf" = ".mypdf" ∧
    allowedTypeTokens.contains "mypdf" = false ∧
    allowedTypeTokens.contains "fake/mypdf" = false := by
  decide

/-- C10 amended: an upload is rejected by the multer middleware, before the
hash computation, the blob write and the record insertion and with the store
left unchanged, exactly when the substring-based fileFilter fails on the
lowercased extension or the mimetype, or the file exceeds 10 * 1024 * 1024
bytes; exact membership of the extension in the allowlist is not required by
the filter. -/
theorem upload_rejected_before_any_effect (hashFn : List Nat → String)
    (pinHash : String → String) (db : DB) (userId : Nat)
    (originalname mimetype : String) (content : List Nat)
    (accessLevel accessPin : Option String) (now : Nat)
    (h : fileFilter originalname mimetype = false ∨
      maxFileSize < content.length) :
    uploadRoute hashFn pinHash db userId originalname mimetype content
        accessLevel accessPin now =
      (db, UploadResponse.rejectedByMulter, []) := by
  have hcond : (!(fileFilter originalname mimetype) ||
      decide (maxFileSize < content.length)) = true := by
    rcases h with h | h
    · rw [h]
      rfl
    · simp [h]
  unfold uploadRoute
  rw [if_pos hcond]

/-- Witness for the amended C10 at a concrete upload whose declared mimetype
text/plain contains no allowlisted token, so the filter rejects it. -/
theorem upload_rejected_before_any_effect_witness :
    uploadRoute (fun _ => "H") (fun p => p) emptyDB 1 "report.txt"
        "text/plain" [0] (some "public") none 0 =
      (emptyDB, UploadResponse.rejectedByMulter, []) :=
  upload_rejected_before_any_effect (fun _ => "H") (fun p => p) emptyDB 1
    "report.txt" "text/plain" [0] (some "public") none 0 (Or.inl (by decide))

theorem flipLatest_inChain (o : Nat) (b : String) (o2 : Nat) (b2 : String)
    (d : Doc) : inChain o2 b2 (flipLatest o b d) = inChain o2 b2 d := by
  unfold flipLatest
  split <;> rfl

theorem flipLatest_id (o : Nat) (b : String) (d : Doc) :
    (flipLatest o b d).id = d.id := by
  unfold flipLatest
  split <;> rfl

theorem flipLatest_version (o : Nat) (b : String) (d : Doc) :
    (flipLatest o b d).version = d.version := by
  unfold flipLatest
  split <;> rfl

theorem flipLatest_parent (o : Nat) (b : String) (d : Doc) :
    (flipLatest o b d).parentDocument = d.parentDocument := by
  unfold flipLatest
  split <;> rfl

theorem pushEntry_inChain (p : Option Nat) (n : Nat) (e : VHEntry)
    (o2 : Nat) (b2 : String) (d : Doc) :
    inChain o2 b2 (pushEntry p n e d) = inChain o2 b2 d := by
  unfold pushEntry
  split <;> rfl

theorem pushEntry_id (p : Option Nat) (n : Nat) (e : VHEntry) (d : Doc) :
    (pushEntry p n e d).id = d.id := by
  unfold pushEntry
  split <;> rfl

theorem pushEntry_version (p : Option Nat) (n : Nat) (e : VHEntry) (d : Doc) :
    (pushEntry p n e d).version = d.version := by
  unfold pushEntry
  split <;> rfl

theorem pushEntry_parent (p : Option Nat) (n : Nat) (e : VHEntry) (d : Doc) :
    (pushEntry p n e d).parentDocument = d.parentDocument := by
  unfold pushEntry
  split <;> rfl

theorem pushEntry_latest (p : Option Nat) (n : Nat) (e : VHEntry) (d : Doc) :
    (pushEntry p n e d).isLatestVersion = d.isLatestVersion := by
  unfold pushEntry
  split <;> rfl

theorem pushEntry_latestInChain (p : Option Nat) (n : Nat) (e : VHEntry)
    (o2 : Nat) (b2 : String) (d : Doc) :
    latestInChain o2 b2 (pushEntry p n e d) = latestInChain o2 b2 d := by
  unfold latestInChain
  rw [pushEntry_inChain, pushEntry_latest]

theorem pruneEntry_inChain (p : Option Nat) (n : Nat) (o2 : Nat) (b2 : String)
    (d : Doc) : inChain o2 b2 (pruneEntry p n d) = inChain o2 b2 d := by
  unfold pruneEntry
  split <;> rfl

theorem pruneEntry_id (p : Option Nat) (n : Nat) (d : Doc) :
    (pruneEntry p n d).id = d.id := by
  unfold pruneEntry
  split <;> rfl

theorem pruneEntry_version (p : Option Nat) (n : Nat) (d : Doc) :
    (pruneEntry p n d).version = d.version := by
  unfold pruneEntry
  split <;> rfl

theorem pruneEntry_latest (p : Option Nat) (n : Nat) (d : Doc) :
    (pruneEntry p n d).isLatestVersion = d.isLatestVersion := by
  unfold pruneEntry
  split <;> rfl

theorem pruneEntry_latestInChain (p : Option Nat) (n : Nat) (o2 : Nat)
    (b2 : String) (d : Doc) :
    latestInChain o2 b2 (pruneEntry p n d) = latestInChain o2 b2 d := by
  unfold latestInChain
  rw [pruneEntry_inChain, pruneEntry_latest]

theorem countP_map_of_pres {α : Type} (p : α → Bool) (f : α → α) (l : List α)
    (h : ∀ d, p (f d) = p d) : (l.map f).countP p = l.countP p := by
  induction l with
  | nil => rfl
  | cons a l ih => simp [List.countP_cons, ih, h a]

theorem filter_map_of_pres {α : Type} (p : α → Bool) (f : α → α) (l : List α)
    (h : ∀ d, p (f d) = p d) : (l.map f).filter p = (l.filter p).map f := by
  induction l with
  | nil => rfl
  | cons a l ih =>
    simp only [List.map_cons, List.filter_cons, h a]
    cases hp : p a <;> simp [ih]

theorem two_le_countP_of_mem_ne {α : Type} {p : α → Bool} {l : List α}
    {a x : α} (ha : a ∈ l) (hx : x ∈ l) (hne : x ≠ a) (hpa : p a = true)
    (hpx : p x = true) : 2 ≤ l.countP p := by
  induction l with
  | nil => cases ha
  | cons y ys ih =>
    rw [List.countP_cons]
    rcases List.mem_cons.mp ha with rfl | ha2
    · rcases List.mem_cons.mp hx with rfl | hx2
      · exact absurd rfl hne
      · have h1 : 0 < List.countP p ys :=
          List.countP_pos_iff.mpr ⟨x, hx2, hpx⟩
        rw [if_pos hpa]
        omega
    · rcases List.mem_cons.mp hx with rfl | hx2
      · have h1 : 0 < List.countP p ys :=
          List.countP_pos_iff.mpr ⟨a, ha2, hpa⟩
        rw [if_pos hpx]
        omega
      · have := ih ha2 hx2
        omega

theorem countP_eq_zero_of_unique {α : Type} {p q : α → Bool} {l : List α}
    {a : α} (ha : a ∈ l) (hpa : p a = true)
    (hq : ∀ x, q x = true → p x = true ∧ x ≠ a) (hle : l.countP p ≤ 1) :
    l.countP q = 0 := by
  rw [List.countP_eq_zero]
  intro x hx hqx
  obtain ⟨hpx, hne⟩ := hq x hqx
  exact absurd (two_le_countP_of_mem_ne ha hx hne hpa hpx) (by omega)

theorem countP_setFirstLatest_le (p : Doc → Bool) (l : List Doc) (o : Nat)
    (b : String) (v : Nat) :
    (setFirstLatest l o b v).countP p ≤ l.countP p + 1 := by
  induction l with
  | nil => simp [setFirstLatest]
  | cons d ds ih =>
    unfold setFirstLatest
    split
    · rw [List.countP_cons, List.countP_cons]
      split <;> split <;> omega
    · rw [List.countP_cons, List.countP_cons]
      split <;> omega

theorem countP_setFirstLatest_eq (p : Doc → Bool) (l : List Doc) (o : Nat)
    (b : String) (v : Nat)
    (h : ∀ d, inChain o b d = true →
      p { d with isLatestVersion := true } = p d) :
    (setFirstLatest l o b v).countP p = l.countP p := by
  induction l with
  | nil => rfl
  | cons d ds ih =>
    unfold setFirstLatest
    split
    · next hcond =>
      rw [List.countP_cons, List.countP_cons,
        h d (Bool.and_elim_left hcond)]
    · rw [List.countP_cons, List.countP_cons, ih]

theorem setFirstLatest_map_id (l : List Doc) (o : Nat) (b : String) (v : Nat) :
    (setFirstLatest l o b v).map (fun d => d.id) = l.map (fun d => d.id) := by
  induction l with
  | nil => rfl
  | cons d ds ih =>
    unfold setFirstLatest
    split
    · rfl
    · rw [List.map_cons, List.map_cons, ih]

theorem setFirstLatest_mem (l : List Doc) (o : Nat) (b : String) (v : Nat)
    (h : ∃ x ∈ l, inChain o b x = true ∧ x.version = v) :
    ∃ x ∈ setFirstLatest l o b v, inChain o b x = true ∧ x.version = v ∧
      x.isLatestVersion = true ∧ ∃ q ∈ l, q.id = x.id ∧ q.version = v := by
  induction l with
  | nil =>
    obtain ⟨x, hx, _⟩ := h
    cases hx
  | cons d ds ih =>
    unfold setFirstLatest
    split
    · next hcond =>
      have hdv : d.version = v := by
        simpa using of_decide_eq_true
          (by simpa [decide_eq_true_eq] using Bool.and_elim_right hcond)
      refine ⟨{ d with isLatestVersion := true }, List.mem_cons_self _ _,
        ?_, ?_, rfl, d, List.mem_cons_self _ _, rfl, hdv⟩
      · have : inChain o b d = true := Bool.and_elim_left hcond
        simpa [inChain] using this
      · simpa using hdv
    · next hcond =>
      obtain ⟨x, hx, hxc, hxv⟩ := h
      rcases List.mem_cons.mp hx with rfl | hx2
      · exfalso
        apply hcond
        rw [hxc]
        simp [hxv]
      · obtain ⟨y, hy, hyc, hyv, hyl, q, hq, hqid, hqv⟩ := ih ⟨x, hx2, hxc, hxv⟩
        exact ⟨y, List.mem_cons_of_mem _ hy, hyc, hyv, hyl, q,
          List.mem_cons_of_mem _ hq, hqid, hqv⟩

theorem uploadHandler_fst_docs (db : DB) (owner : Nat) (meta : UploadMeta) :
    (uploadHandler db owner meta).1.docs =
      ((if (chainDocs db owner (parseNameOf meta.originalName)).isEmpty
          then db.docs
          else db.docs.map (flipLatest owner (parseNameOf meta.originalName)))
        ++ [mkNewDoc db.nextId owner meta
            (uploadVersionParent db owner (parseNameOf meta.originalName))]).map
        (pushEntry
          (uploadVersionParent db owner (parseNameOf meta.originalName)).2
          db.nextId
          (mkEntry
            (uploadVersionParent db owner (parseNameOf meta.originalName)).1
            db.nextId meta.now owner)) := rfl

theorem uploadHandler_fst_nextId (db : DB) (owner : Nat) (meta : UploadMeta) :
    (uploadHandler db owner meta).1.nextId = db.nextId + 1 := rfl

theorem inChain_eq_of_true {o : Nat} {b : String} {d : Doc}
    (h : inChain o b d = true) : d.baseFileName = b ∧ d.uploadedBy = o := by
  unfold inChain at h
  exact ⟨beq_iff_eq.mp (Bool.and_elim_left h),
    beq_iff_eq.mp (Bool.and_elim_right h)⟩

theorem latestInChain_flipLatest_other (o2 : Nat) (b2 : String) (owner : Nat)
    (base : String) (hne : ¬(o2 = owner ∧ b2 = base)) (d : Doc) :
    latestInChain o2 b2 (flipLatest owner base d) = latestInChain o2 b2 d := by
  unfold flipLatest
  split
  · next hin =>
    obtain ⟨h1, h2⟩ := inChain_eq_of_true hin
    have hfalse : inChain o2 b2 d = false := by
      simp only [inChain, h1, h2]
      rcases not_and_or.mp hne with h | h
      · rw [beq_eq_false_iff_ne.mpr (fun hh => h hh.symm)]
        simp
      · rw [beq_eq_false_iff_ne.mpr (fun hh => h hh.symm)]
        simp
    have hfalse2 : inChain o2 b2 { d with isLatestVersion := false } = false :=
      hfalse
    simp only [latestInChain, hfalse, hfalse2]
    simp
  · rfl

theorem countLatest_upload_self (db : DB) (owner : Nat) (meta : UploadMeta) :
    countLatest (uploadHandler db owner meta).1 owner
      (parseNameOf meta.originalName) = 1 := by
  unfold countLatest
  rw [uploadHandler_fst_docs,
    countP_map_of_pres _ _ _
      (pushEntry_latestInChain _ _ _ owner (parseNameOf meta.originalName)),
    List.countP_append, List.countP_singleton]
  have hnew : latestInChain owner (parseNameOf meta.originalName)
      (mkNewDoc db.nextId owner meta
        (uploadVersionParent db owner (parseNameOf meta.originalName))) =
      true := by
    simp [latestInChain, inChain, mkNewDoc]
  rw [hnew, if_pos rfl]
  have hflip : (if (chainDocs db owner
        (parseNameOf meta.originalName)).isEmpty then db.docs
      else db.docs.map
        (flipLatest owner (parseNameOf meta.originalName))).countP
      (latestInChain owner (parseNameOf meta.originalName)) = 0 := by
    split
    · next hemp =>
      rw [List.countP_eq_zero]
      intro d hd
      have hnotin : inChain owner (parseNameOf meta.originalName) d = false := by
        have := (List.filter_eq_nil_iff).mp (List.isEmpty_iff.mp hemp) d hd
        simpa using this
      simp [latestInChain, hnotin]
    · rw [List.countP_map, List.countP_eq_zero]
      intro d hd
      simp only [Function.comp]
      unfold flipLatest
      split
      · simp [latestInChain]
      · next hnot =>
        simp only [latestInChain, Bool.and_eq_true, not_and]
        intro hc
        exact absurd hc hnot
  rw [hflip]

theorem countLatest_upload_other (db : DB) (owner : Nat) (meta : UploadMeta)
    (o : Nat) (b : String)
    (hob : ¬(o = owner ∧ b = parseNameOf meta.originalName)) :
    countLatest (uploadHandler db owner meta).1 o b = countLatest db o b := by
  unfold countLatest
  rw [uploadHandler_fst_docs,
    countP_map_of_pres _ _ _ (pushEntry_latestInChain _ _ _ o b),
    List.countP_append, List.countP_singleton]
  have hnew : latestInChain o b
      (mkNewDoc db.nextId owner meta
        (uploadVersionParent db owner (parseNameOf meta.originalName))) =
      false := by
    simp only [latestInChain, inChain, mkNewDoc]
    rcases not_and_or.mp hob with h | h
    · rw [beq_eq_false_iff_ne.mpr (fun hh => h hh.symm)]
      simp
    · rw [beq_eq_false_iff_ne.mpr (fun hh => h hh.symm)]
      simp
  rw [hnew]
  have hflip : (if (chainDocs db owner
        (parseNameOf meta.originalName)).isEmpty then db.docs
      else db.docs.map
        (flipLatest owner (parseNameOf meta.originalName))).countP
      (latestInChain o b) = db.docs.countP (latestInChain o b) := by
    split
    · rfl
    · exact countP_map_of_pres _ _ _
        (latestInChain_flipLatest_other o b owner
          (parseNameOf meta.originalName) hob)
  rw [hflip]
  simp

theorem deleteRoute_props (db : DB) (docId userId : Nat) (role : String)
    (blob : BlobDeleteOutcome) (doc : Doc)
    (hf : db.docs.find? (fun d => d.id == docId) = some doc)
    (hauth : (role != "admin" && doc.uploadedBy != userId) = false) :
    (deleteRoute db docId userId role blob).1.docs =
      (((if doc.isLatestVersion && doc.version > 1 then
          setFirstLatest db.docs doc.uploadedBy doc.baseFileName
            (doc.version - 1)
        else db.docs).map (pruneEntry doc.parentDocument docId)).filter
        (fun d => d.id != docId)) ∧
    (deleteRoute db docId userId role blob).1.nextId = db.nextId ∧
    (deleteRoute db docId userId role blob).2 = DeleteOutcome.deleted := by
  cases blob <;> simp [deleteRoute, hf, hauth, deleteFromDropbox]

theorem deleteRoute_unchanged_of_notFound (db : DB) (docId userId : Nat)
    (role : String) (blob : BlobDeleteOutcome)
    (hf : db.docs.find? (fun d => d.id == docId) = none) :
    (deleteRoute db docId userId role blob).1 = db := by
  simp only [deleteRoute, hf]

theorem deleteRoute_unchanged_of_denied (db : DB) (docId userId : Nat)
    (role : String) (blob : BlobDeleteOutcome) (doc : Doc)
    (hf : db.docs.find? (fun d => d.id == docId) = some doc)
    (hauth : (role != "admin" && doc.uploadedBy != userId) = true) :
    (deleteRoute db docId userId role blob).1 = db := by
  simp only [deleteRoute, hf, hauth, if_true]

theorem docIds_upload (db : DB) (owner : Nat) (meta : UploadMeta) :
    docIds (uploadHandler db owner meta).1 = docIds db ++ [db.nextId] := by
  unfold docIds
  rw [uploadHandler_fst_docs, List.map_map, List.map_append]
  congr 1
  · split
    · exact List.map_congr_left (fun d _ => pushEntry_id _ _ _ d)
    · rw [List.map_map]
      exact List.map_congr_left (fun d _ => by
        simp only [Function.comp]
        rw [pushEntry_id, flipLatest_id])
  · simp only [List.map_cons, List.map_nil, Function.comp]
    rw [pushEntry_id]
    rfl

theorem goodIds_upload (db : DB) (owner : Nat) (meta : UploadMeta)
    (h : GoodIds db) : GoodIds (uploadHandler db owner meta).1 := by
  obtain ⟨hbound, hnodup⟩ := h
  constructor
  · intro i hi
    rw [docIds_upload] at hi
    rw [uploadHandler_fst_nextId]
    rcases List.mem_append.mp hi with hi | hi
    · exact Nat.lt_succ_of_lt (hbound i hi)
    · rw [List.mem_singleton] at hi
      omega
  · rw [docIds_upload, List.nodup_append]
    refine ⟨hnodup, List.nodup_singleton _, ?_⟩
    intro i hi hmem
    rw [List.mem_singleton] at hmem
    subst hmem
    have := hbound _ hi
    omega

theorem docIds_deleteRoute_sublist (db : DB) (docId userId : Nat)
    (role : String) (blob : BlobDeleteOutcome) :
    (docIds (deleteRoute db docId userId role blob).1).Sublist (docIds db) ∧
    (deleteRoute db docId userId role blob).1.nextId = db.nextId := by
  cases hf : db.docs.find? (fun d => d.id == docId) with
  | none =>
    rw [deleteRoute_unchanged_of_notFound db docId userId role blob hf]
    exact ⟨List.Sublist.refl _, rfl⟩
  | some doc =>
    by_cases hauth : (role != "admin" && doc.uploadedBy != userId) = true
    · rw [deleteRoute_unchanged_of_denied db docId userId role blob doc hf
        hauth]
      exact ⟨List.Sublist.refl _, rfl⟩
    · have hauth2 : (role != "admin" && doc.uploadedBy != userId) = false :=
        Bool.eq_false_iff.mpr hauth
      obtain ⟨hdocs, hnext, -⟩ :=
        deleteRoute_props db docId userId role blob doc hf hauth2
      refine ⟨?_, hnext⟩
      unfold docIds
      rw [hdocs]
      have hsub1 : ((((if doc.isLatestVersion && doc.version > 1 then
            setFirstLatest db.docs doc.uploadedBy doc.baseFileName
              (doc.version - 1)
          else db.docs).map (pruneEntry doc.parentDocument docId)).filter
          (fun d => d.id != docId)).map (fun d => d.id)).Sublist
          ((((if doc.isLatestVersion && doc.version > 1 then
            setFirstLatest db.docs doc.uploadedBy doc.baseFileName
              (doc.version - 1)
          else db.docs).map (pruneEntry doc.parentDocument docId))).map
          (fun d => d.id)) :=
        List.Sublist.map _ (List.filter_sublist _)
      have heq : ((((if doc.isLatestVersion && doc.version > 1 then
            setFirstLatest db.docs doc.uploadedBy doc.baseFileName
              (doc.version - 1)
          else db.docs).map (pruneEntry doc.parentDocument docId))).map
          (fun d => d.id)) = db.docs.map (fun d => d.id) := by
        rw [List.map_map]
        have hpt : ∀ d, ((fun d => d.id) ∘ pruneEntry doc.parentDocument docId)
            d = d.id := fun d => pruneEntry_id _ _ d
        rw [List.map_congr_left (fun d _ => hpt d)]
        split
        · exact setFirstLatest_map_id _ _ _ _
        · rfl
      rw [heq] at hsub1
      exact hsub1

theorem goodIds_delete (db : DB) (docId userId : Nat) (role : String)
    (blob : BlobDeleteOutcome) (h : GoodIds db) :
    GoodIds (deleteRoute db docId userId role blob).1 := by
  obtain ⟨hsub, hnext⟩ := docIds_deleteRoute_sublist db docId userId role blob
  obtain ⟨hbound, hnodup⟩ := h
  constructor
  · intro i hi
    rw [hnext]
    exact hbound i (hsub.mem hi)
  · exact List.Nodup.sublist hsub hnodup

theorem latestAtMostOne_delete (db : DB) (docId userId : Nat) (role : String)
    (blob : BlobDeleteOutcome) (h : LatestAtMostOne db) :
    LatestAtMostOne (deleteRoute db docId userId role blob).1 := by
  intro o b
  cases hf : db.docs.find? (fun d => d.id == docId) with
  | none =>
    rw [deleteRoute_unchanged_of_notFound db docId userId role blob hf]
    exact h o b
  | some doc =>
    by_cases hauth : (role != "admin" && doc.uploadedBy != userId) = true
    · rw [deleteRoute_unchanged_of_denied db docId userId role blob doc hf
        hauth]
      exact h o b
    · have hauth2 : (role != "admin" && doc.uploadedBy != userId) = false :=
        Bool.eq_false_iff.mpr hauth
      obtain ⟨hdocs, -, -⟩ :=
        deleteRoute_props db docId userId role blob doc hf hauth2
      unfold countLatest
      rw [hdocs, List.countP_filter,
        countP_map_of_pres _ _ _ (fun d => by
          rw [pruneEntry_latestInChain, pruneEntry_id])]
      set q : Doc → Bool :=
        fun d => latestInChain o b d && (d.id != docId) with hq
      have hq_imp : ∀ x ∈ db.docs, q x = true → latestInChain o b x = true :=
        fun x _ hx => Bool.and_elim_left hx
      split
      · next hrepoint =>
        by_cases hkey : o = doc.uploadedBy ∧ b = doc.baseFileName
        · have hdocid : doc.id = docId := by
            have := List.find?_some hf
            simpa using this
          have hdoclatest : doc.isLatestVersion = true :=
            Bool.and_elim_left hrepoint
          have hpdoc : latestInChain o b doc = true := by
            simp only [latestInChain, inChain, hkey.1, hkey.2, hdoclatest]
            simp
          have hzero : db.docs.countP q = 0 := by
            refine countP_eq_zero_of_unique (List.mem_of_find?_eq_some hf)
              hpdoc ?_ (h o b)
            intro x hx
            refine ⟨Bool.and_elim_left hx, ?_⟩
            intro hxd
            subst hxd
            have := Bool.and_elim_right hx
            rw [hdocid] at this
            simp at this
          calc (setFirstLatest db.docs doc.uploadedBy doc.baseFileName
                (doc.version - 1)).countP q
              ≤ db.docs.countP q + 1 := countP_setFirstLatest_le _ _ _ _ _
            _ ≤ 1 := by omega
        · rw [countP_setFirstLatest_eq]
          · calc db.docs.countP q
                ≤ db.docs.countP (latestInChain o b) :=
                  List.countP_mono_left hq_imp
              _ ≤ 1 := h o b
          · intro d hin
            obtain ⟨h1, h2⟩ := inChain_eq_of_true hin
            have hfalse : inChain o b d = false := by
              simp only [inChain, h1, h2]
              rcases not_and_or.mp hkey with hco | hco
              · rw [beq_eq_false_iff_ne.mpr (fun hh => hco hh.symm)]
                simp
              · rw [beq_eq_false_iff_ne.mpr (fun hh => hco hh.symm)]
                simp
            have hfalse2 :
                inChain o b { d with isLatestVersion := true } = false :=
              hfalse
            simp only [hq, latestInChain, hfalse, hfalse2]
            simp
      · calc db.docs.countP q
            ≤ db.docs.countP (latestInChain o b) :=
              List.countP_mono_left hq_imp
          _ ≤ 1 := h o b

theorem storeInv_empty : StoreInv emptyDB := by
  refine ⟨⟨?_, ?_⟩, ?_⟩
  · intro i hi
    simp [docIds, emptyDB] at hi
  · simp [docIds, emptyDB]
  · intro o b
    simp [countLatest, emptyDB]

theorem storeInv_step (db : DB) (op : Op) (h : StoreInv db) :
    StoreInv (stepOp db op) := by
  cases op with
  | upload owner meta =>
    refine ⟨goodIds_upload db owner meta h.1, ?_⟩
    intro o b
    show countLatest (uploadHandler db owner meta).1 o b ≤ 1
    by_cases hob : o = owner ∧ b = parseNameOf meta.originalName
    · obtain ⟨h1, h2⟩ := hob
      subst h1
      subst h2
      rw [countLatest_upload_self]
    · rw [countLatest_upload_other db owner meta o b hob]
      exact h.2 o b
  | deleteDoc docId userId role blob =>
    exact ⟨goodIds_delete db docId userId role blob h.1,
      latestAtMostOne_delete db docId userId role blob h.2⟩

theorem storeInv_runOps (db : DB) (ops : List Op) (h : StoreInv db) :
    StoreInv (runOps db ops) := by
  induction ops generalizing db with
  | nil => exact h
  | cons op ops ih => exact ih (stepOp db op) (storeInv_step db op h)

/-- C4: starting from the empty store, after any sequence of completed,
non-overlapping upload and delete operations, every chain (fixed uploadedBy
and baseFileName) has at most one record with isLatestVersion true. -/
theorem at_most_one_latest_per_chain (ops : List Op) (o : Nat) (b : String) :
    countLatest (runOps emptyDB ops) o b ≤ 1 :=
  (storeInv_runOps emptyDB ops storeInv_empty).2 o b

theorem deleteRoute_blob_independent (db : DB) (docId userId : Nat)
    (role : String) (b1 b2 : BlobDeleteOutcome) :
    deleteRoute db docId userId role b1 = deleteRoute db docId userId role b2 := by
  cases b1 <;> cases b2 <;> rfl

/-- C7: a 409 not-found from the blob store during delete is converted into a
successful return by deleteFromDropbox, and the resulting store and response
of the delete route are identical for every blob outcome, so an erroring blob
delete prevents neither the chain re-pointing, nor the versionHistory
pruning, nor the removal of the metadata record, which is gone afterwards. -/
theorem blob_delete_failure_does_not_block_cleanup (db : DB)
    (docId userId : Nat) (role : String) (m : String) (doc : Doc)
    (hf : db.docs.find? (fun d => d.id == docId) = some doc)
    (hauth : role = "admin" ∨ doc.uploadedBy = userId) :
    deleteFromDropbox BlobDeleteOutcome.notFound = Except.ok true ∧
    (∀ b1 b2, deleteRoute db docId userId role b1 =
      deleteRoute db docId userId role b2) ∧
    (deleteRoute db docId userId role (BlobDeleteOutcome.otherError m)).2 =
      DeleteOutcome.deleted ∧
    ∀ d ∈ (deleteRoute db docId userId role
        (BlobDeleteOutcome.otherError m)).1.docs, d.id ≠ docId := by
  have hauth2 : (role != "admin" && doc.uploadedBy != userId) = false := by
    rcases hauth with h | h <;> simp [h]
  obtain ⟨hdocs, -, hout⟩ := deleteRoute_props db docId userId role
    (BlobDeleteOutcome.otherError m) doc hf hauth2
  refine ⟨rfl, fun b1 b2 => deleteRoute_blob_independent db docId userId role
    b1 b2, hout, ?_⟩
  intro d hd
  rw [hdocs] at hd
  have := List.of_mem_filter hd
  simpa using this

/-- Witness for C7 at a concrete two-version store: the owner of the chain is
deleted by an admin while the blob store errors. -/
theorem blob_delete_failure_does_not_block_cleanup_witness :
    deleteFromDropbox BlobDeleteOutcome.notFound = Except.ok true ∧
    (∀ b1 b2, deleteRoute dbTwo 10 99 "admin" b1 =
      deleteRoute dbTwo 10 99 "admin" b2) ∧
    (deleteRoute dbTwo 10 99 "admin" (BlobDeleteOutcome.otherError "boom")).2 =
      DeleteOutcome.deleted ∧
    ∀ d ∈ (deleteRoute dbTwo 10 99 "admin"
        (BlobDeleteOutcome.otherError "boom")).1.docs, d.id ≠ 10 :=
  blob_delete_failure_does_not_block_cleanup dbTwo 10 99 "admin" "boom" docV1
    (by decide) (Or.inl rfl)

/-- C8: the claim states the intent of the code itself (the upload route comments the
fan-out as updating the version history of all versions of this document),
but on a version-1 upload the fan-out filter contains parentDocument = null,
which matches every record whose parentDocument is null: uploading report.pdf
as user 1 pushes the new versionHistory entry also onto the unrelated
single-version document of user 2. -/
theorem v1_fanout_mutates_foreign_root_record :
    ((uploadHandler { docs := [docForeignRoot], nextId := 5 } 1
        metaReport).1.docs.find? (fun d => d.id == 1)) =
      some { docForeignRoot with versionHistory :=
        [{ version := 1, documentId := 5, uploadDate := 10,
           uploadedBy := 1 }] } ∧
    docForeignRoot.uploadedBy ≠ 1 ∧
    docForeignRoot.baseFileName ≠ parseNameOf metaReport.originalName ∧
    docForeignRoot.versionHistory = [] := by
  decide

/-- C5: a completed delete of the latest record of a chain, with version N
greater than 1, by an authorized caller, leaves a record of the same chain
with version N-1 and isLatestVersion true in the store (assuming the store
holds such a record and ids are unambiguous). -/
theorem delete_latest_promotes_previous_version (db : DB) (docId userId : Nat)
    (role : String) (blob : BlobDeleteOutcome) (doc : Doc)
    (hf : db.docs.find? (fun d => d.id == docId) = some doc)
    (hauth : role = "admin" ∨ doc.uploadedBy = userId)
    (hlat : doc.isLatestVersion = true) (hv : 1 < doc.version)
    (hprev : ∃ x ∈ db.docs, inChain doc.uploadedBy doc.baseFileName x = true ∧
      x.version = doc.version - 1)
    (hid : ∀ d ∈ db.docs, d.id = doc.id → d = doc) :
    (deleteRoute db docId userId role blob).2 = DeleteOutcome.deleted ∧
    ∃ d ∈ (deleteRoute db docId userId role blob).1.docs,
      inChain doc.uploadedBy doc.baseFileName d = true ∧
      d.version = doc.version - 1 ∧ d.isLatestVersion = true := by
  have hauth2 : (role != "admin" && doc.uploadedBy != userId) = false := by
    rcases hauth with h | h <;> simp [h]
  obtain ⟨hdocs, -, hout⟩ :=
    deleteRoute_props db docId userId role blob doc hf hauth2
  have hdocid : doc.id = docId := by
    have := List.find?_some hf
    simpa using this
  refine ⟨hout, ?_⟩
  rw [hdocs]
  have hrep : (doc.isLatestVersion && decide (doc.version > 1)) = true := by
    simp [hlat, hv]
  rw [if_pos hrep]
  obtain ⟨y, hy, hyc, hyv, hyl, q, hq, hqid, hqv⟩ :=
    setFirstLatest_mem db.docs doc.uploadedBy doc.baseFileName
      (doc.version - 1) hprev
  have hyne : y.id ≠ docId := by
    intro he
    have hqd : q = doc := hid q hq (by rw [hqid, he, hdocid])
    rw [hqd] at hqv
    omega
  refine ⟨pruneEntry doc.parentDocument docId y, ?_, ?_, ?_, ?_⟩
  · apply List.mem_filter.mpr
    refine ⟨List.mem_map_of_mem _ hy, ?_⟩
    rw [pruneEntry_id]
    simpa using hyne
  · rw [pruneEntry_inChain]
    exact hyc
  · rw [pruneEntry_version]
    exact hyv
  · rw [pruneEntry_latest]
    exact hyl

/-- Witness for C5: deleting version 2 (the latest) of the concrete
two-version chain by its owner leaves version 1 marked latest. -/
theorem delete_latest_promotes_previous_version_witness :
    (deleteRoute dbTwo 11 1 "user" BlobDeleteOutcome.ok).2 =
      DeleteOutcome.deleted ∧
    ∃ d ∈ (deleteRoute dbTwo 11 1 "user" BlobDeleteOutcome.ok).1.docs,
      inChain docV2.uploadedBy docV2.baseFileName d = true ∧
      d.version = docV2.version - 1 ∧ d.isLatestVersion = true :=
  delete_latest_promotes_previous_version dbTwo 11 1 "user"
    BlobDeleteOutcome.ok docV2 (by decide) (Or.inr rfl) rfl (by decide)
    (by decide) (by decide)

theorem chainDocs_uploadHandler_self (db : DB) (owner : Nat)
    (meta : UploadMeta) :
    ∃ f : Doc → Doc,
      (∀ d, (f d).version = d.version ∧ (f d).id = d.id ∧
        (f d).parentDocument = d.parentDocument) ∧
      ∃ nd : Doc,
        nd.version =
          (uploadVersionParent db owner (parseNameOf meta.originalName)).1 ∧
        nd.id = db.nextId ∧
        nd.parentDocument =
          (uploadVersionParent db owner (parseNameOf meta.originalName)).2 ∧
        chainDocs (uploadHandler db owner meta).1 owner
            (parseNameOf meta.originalName) =
          (chainDocs db owner (parseNameOf meta.originalName)).map f ++ [nd] := by
  set b := parseNameOf meta.originalName
  set vp := uploadVersionParent db owner b
  set entry := mkEntry vp.1 db.nextId meta.now owner
  refine ⟨fun d => pushEntry vp.2 db.nextId entry (flipLatest owner b d),
    ?_, pushEntry vp.2 db.nextId entry (mkNewDoc db.nextId owner meta vp),
    ?_, ?_, ?_, ?_⟩
  · intro d
    rw [pushEntry_version, flipLatest_version, pushEntry_id, flipLatest_id,
      pushEntry_parent, flipLatest_parent]
    exact ⟨rfl, rfl, rfl⟩
  · rw [pushEntry_version]
    rfl
  · rw [pushEntry_id]
    rfl
  · rw [pushEntry_parent]
    rfl
  · unfold chainDocs
    rw [uploadHandler_fst_docs,
      filter_map_of_pres _ _ _ (pushEntry_inChain vp.2 db.nextId entry owner b),
      List.filter_append]
    have hnew : (inChain owner b (mkNewDoc db.nextId owner meta vp)) = true := by
      simp [inChain, mkNewDoc, b]
    rw [List.filter_cons, if_pos hnew]
    simp only [List.filter_nil]
    rw [List.map_append]
    congr 1
    split
    · next hemp =>
      have hnil : List.filter (inChain owner b) db.docs = [] :=
        List.isEmpty_iff.mp hemp
      rw [hnil]
      rfl
    · rw [filter_map_of_pres _ _ _ (flipLatest_inChain owner b owner b),
        List.map_map]
      rfl

theorem maxVersionDoc_spec (l : List Doc) (hne : l ≠ []) :
    ∃ m, maxVersionDoc l = some m ∧ m ∈ l ∧
      ∀ d ∈ l, d.version ≤ m.version := by
  induction l with
  | nil => exact absurd rfl hne
  | cons d ds ih =>
    by_cases hds : ds = []
    · subst hds
      refine ⟨d, rfl, List.mem_singleton.mpr rfl, ?_⟩
      intro x hx
      rw [List.mem_singleton] at hx
      subst hx
      exact Nat.le_refl _
    · obtain ⟨m, hm, hmem, hmax⟩ := ih hds
      have hstep : maxVersionDoc (d :: ds) =
          if m.version > d.version then some m else some d := by
        unfold maxVersionDoc
        rw [hm]
      rw [hstep]
      by_cases hc : m.version > d.version
      · rw [if_pos hc]
        refine ⟨m, rfl, List.mem_cons_of_mem _ hmem, ?_⟩
        intro x hx
        rcases List.mem_cons.mp hx with rfl | hx2
        · omega
        · exact hmax x hx2
      · rw [if_neg hc]
        refine ⟨d, rfl, List.mem_cons_self _ _, ?_⟩
        intro x hx
        rcases List.mem_cons.mp hx with rfl | hx2
        · exact Nat.le_refl _
        · have := hmax x hx2
          omega

theorem chainShape_vp (db : DB) (owner : Nat) (b : String) (k r : Nat)
    (h : ChainShape db owner b k r) (hk : 1 ≤ k) :
    uploadVersionParent db owner b = (k + 1, some r) := by
  obtain ⟨hver, hmem⟩ := h
  have hne : chainDocs db owner b ≠ [] := by
    intro he
    rw [he] at hver
    have := congrArg List.length hver
    simp [List.length_range'] at this
    omega
  obtain ⟨m, hm, hmmem, hmax⟩ := maxVersionDoc_spec _ hne
  have hmle : m.version ≤ k := by
    have hmm : m.version ∈ (chainDocs db owner b).map (fun d => d.version) :=
      List.mem_map_of_mem _ hmmem
    rw [hver, List.mem_range'] at hmm
    obtain ⟨i, hi, he⟩ := hmm
    omega
  obtain ⟨dk, hdk, hdkv⟩ : ∃ d ∈ chainDocs db owner b, d.version = k := by
    have hkmm : k ∈ (chainDocs db owner b).map (fun d => d.version) := by
      rw [hver, List.mem_range']
      exact ⟨k - 1, by omega, by omega⟩
    obtain ⟨d, hd, he⟩ := List.mem_map.mp hkmm
    exact ⟨d, hd, he⟩
  have hmk : m.version = k := by
    have := hmax dk hdk
    omega
  unfold uploadVersionParent
  rw [hm]
  show (m.version + 1, some (m.parentDocument.getD m.id)) = (k + 1, some r)
  rw [hmk]
  by_cases hk1 : k = 1
  · obtain ⟨hid, hpar⟩ := (hmem m hmmem).1 (by omega)
    rw [hpar, hid]
    rfl
  · have hpar := (hmem m hmmem).2 (by omega)
    rw [hpar]
    rfl

theorem chainShape_first (db : DB) (owner : Nat) (meta : UploadMeta)
    (b : String) (hb : parseNameOf meta.originalName = b)
    (hempty : chainDocs db owner b = []) :
    ChainShape (uploadHandler db owner meta).1 owner b 1 db.nextId := by
  obtain ⟨f, hf, nd, hndv, hndi, hndp, hchain⟩ :=
    chainDocs_uploadHandler_self db owner meta
  rw [hb] at hndv hndp hchain
  rw [hempty] at hchain
  simp only [List.map_nil, List.nil_append] at hchain
  have hvp : uploadVersionParent db owner b = (1, none) := by
    unfold uploadVersionParent
    rw [hempty]
    rfl
  rw [hvp] at hndv hndp
  constructor
  · rw [hchain]
    simp [hndv]
  · intro d hd
    rw [hchain, List.mem_singleton] at hd
    subst hd
    constructor
    · intro _
      exact ⟨hndi, hndp⟩
    · intro h2
      rw [hndv] at h2
      omega

theorem chainShape_upload (db : DB) (owner : Nat) (meta : UploadMeta)
    (b : String) (k r : Nat) (hb : parseNameOf meta.originalName = b)
    (h : ChainShape db owner b k r) (hk : 1 ≤ k) :
    ChainShape (uploadHandler db owner meta).1 owner b (k + 1) r := by
  have hvp := chainShape_vp db owner b k r h hk
  obtain ⟨hver, hmem⟩ := h
  obtain ⟨f, hf, nd, hndv, hndi, hndp, hchain⟩ :=
    chainDocs_uploadHandler_self db owner meta
  rw [hb] at hndv hndp hchain
  rw [hvp] at hndv hndp
  constructor
  · rw [hchain, List.map_append, List.map_map]
    have hfe : (chainDocs db owner b).map ((fun d => d.version) ∘ f) =
        (chainDocs db owner b).map (fun d => d.version) :=
      List.map_congr_left (fun d _ => (hf d).1)
    rw [hfe, hver, List.range'_concat]
    simp [hndv]
    omega
  · intro d hd
    rw [hchain] at hd
    rcases List.mem_append.mp hd with hd | hd
    · obtain ⟨d0, hd0, he⟩ := List.mem_map.mp hd
      subst he
      obtain ⟨hfv, hfi, hfp⟩ := hf d0
      constructor
      · intro h1
        rw [hfv] at h1
        obtain ⟨hi, hp⟩ := (hmem d0 hd0).1 h1
        rw [hfi, hfp]
        exact ⟨hi, hp⟩
      · intro h2
        rw [hfv] at h2
        rw [hfp]
        exact (hmem d0 hd0).2 h2
    · rw [List.mem_singleton] at hd
      subst hd
      constructor
      · intro h1
        rw [hndv] at h1
        omega
      · intro _
        exact hndp

theorem chainShape_uploadsN (db : DB) (owner : Nat) (metas : Nat → UploadMeta)
    (b : String) (hb : ∀ i, parseNameOf (metas i).originalName = b)
    (hempty : chainDocs db owner b = []) (n : Nat) (hn : 1 ≤ n) :
    ChainShape (uploadsN db owner metas n) owner b n db.nextId := by
  induction n with
  | zero => omega
  | succ n ih =>
    by_cases hn0 : n = 0
    · subst hn0
      exact chainShape_first db owner (metas 0) b (hb 0) hempty
    · exact chainShape_upload (uploadsN db owner metas n) owner (metas n) b n
        db.nextId (hb n) (ih (by omega)) (by omega)

/-- C3: starting from a store with no records of the chain, N successive
completed uploads of the same base name by the same owner yield chain records
with versions exactly 1..N, and every record with version 2..N has
parentDocument equal to the id of the version-1 record. -/
theorem successive_uploads_yield_versions_one_to_n (db : DB) (owner : Nat)
    (metas : Nat → UploadMeta) (b : String) (n : Nat)
    (hb : ∀ i, parseNameOf (metas i).originalName = b)
    (hempty : chainDocs db owner b = []) (hn : 1 ≤ n) :
    ((chainDocs (uploadsN db owner metas n) owner b).map
      (fun d => d.version) = List.range' 1 n) ∧
    ∃ root ∈ chainDocs (uploadsN db owner metas n) owner b,
      root.version = 1 ∧ root.parentDocument = none ∧
      ∀ d ∈ chainDocs (uploadsN db owner metas n) owner b,
        2 ≤ d.version → d.parentDocument = some root.id := by
  obtain ⟨hver, hmem⟩ := chainShape_uploadsN db owner metas b hb hempty n hn
  refine ⟨hver, ?_⟩
  have h1 : (1 : Nat) ∈ (chainDocs (uploadsN db owner metas n) owner b).map
      (fun d => d.version) := by
    rw [hver, List.mem_range']
    exact ⟨0, by omega, by omega⟩
  obtain ⟨root, hrmem, hrv⟩ := List.mem_map.mp h1
  obtain ⟨hrid, hrpar⟩ := (hmem root hrmem).1 hrv
  refine ⟨root, hrmem, hrv, hrpar, ?_⟩
  intro d hd h2
  rw [(hmem d hd).2 h2, hrid]

/-- Witness for C3: three uploads of report.pdf by user 1 into the empty
store produce versions 1, 2, 3 with versions 2 and 3 parented at the root. -/
theorem successive_uploads_yield_versions_one_to_n_witness :
    ((chainDocs (uploadsN emptyDB 1 (fun _ => metaReport) 3) 1 "report").map
      (fun d => d.version) = List.range' 1 3) ∧
    ∃ root ∈ chainDocs (uploadsN emptyDB 1 (fun _ => metaReport) 3) 1 "report",
      root.version = 1 ∧ root.parentDocument = none ∧
      ∀ d ∈ chainDocs (uploadsN emptyDB 1 (fun _ => metaReport) 3) 1 "report",
        2 ≤ d.version → d.parentDocument = some root.id :=
  successive_uploads_yield_versions_one_to_n emptyDB 1 (fun _ => metaReport)
    "report" 3 (fun _ => by
      show parseNameOf metaReport.originalName = "report"
      decide) rfl (by decide)

end DMS
